import Mathlib

/-!
Formal model of the image-classification competition app (src/app.py).

The app is a single-page workflow: a user uploads a Keras model, the app
evaluates it on a cached hidden test set and appends the resulting accuracy
to a CSV leaderboard.  The Python source delegates to external collaborators
(PIL for image resizing, pandas for CSV input and output and for the
leaderboard table, numpy for argmax and mean, the Python runtime for
string formatting and rounding).  Those collaborators are modelled here
from their documented behaviour, restricted to how the app uses them;
everything else is translated directly from src/app.py.

Python strings are modelled as lists of characters (Chars), Python floats
holding the stored accuracy values as exact rationals.
-/

abbrev Chars := List Char

/-- Characters removed by Python str.strip() with no argument (ASCII
whitespace; the rare higher Unicode whitespace is not modelled). -/
def isSpaceCh (c : Char) : Bool :=
  c = ' ' || c = '\t' || c = '\n' || c = '\r' || c = '\x0b' || c = '\x0c'

/-- Model of Python str.strip(): drop leading and trailing whitespace. -/
def pyStrip (s : Chars) : Chars :=
  ((s.dropWhile isSpaceCh).reverse.dropWhile isSpaceCh).reverse

/-- Code-point lexicographic strict order on strings, exactly how Python
compares str values (used by sorted() and by pandas sort_values on a
string column). -/
def strLt : Chars → Chars → Bool
  | [], [] => false
  | [], _ :: _ => true
  | _ :: _, [] => false
  | a :: as, b :: bs => if a < b then true else if a = b then strLt as bs else false

/-- Decimal digit characters of a natural number, most significant first;
the first argument is fuel (the number itself suffices). -/
def natDigitsAux : Nat → Nat → Chars
  | _, 0 => []
  | 0, _ => []
  | fuel+1, n => natDigitsAux fuel (n / 10) ++ [Char.ofNat (48 + n % 10)]

/-- Decimal rendering of a natural number, as Python str() renders it. -/
def natDigits (n : Nat) : Chars :=
  if n = 0 then ['0'] else natDigitsAux n n

def isDigitCh (c : Char) : Bool := '0' ≤ c && c ≤ '9'

/-- Value of a string of decimal digits, most significant first. -/
def digitsVal (s : Chars) : Nat :=
  s.foldl (fun a c => 10 * a + (c.toNat - 48)) 0

/-- Parse a nonempty all-digit string; anything else is rejected. -/
def digitsToNat? (s : Chars) : Option Nat :=
  if s ≠ [] ∧ s.all isDigitCh then some (digitsVal s) else none

/-- Model of Python str.split(sep) for a one-character separator: splitting
the empty string gives one empty field, and every separator occurrence
starts a new field. -/
def splitOnC (sep : Char) : Chars → List Chars
  | [] => [[]]
  | c :: cs =>
    match splitOnC sep cs with
    | [] => [[c]]
    | f :: rest => if c = sep then [] :: f :: rest else (c :: f) :: rest

/-- Number of hundredths held by a rational whose denominator divides 100
(the stored accuracies, which are results of round(acc*100, 2)). -/
def hundredths (q : ℚ) : Nat := q.num.toNat * (100 / q.den)

/-- Fractional part (in hundredths, 0 ≤ fr < 100) rendered the way Python
str() renders a float's fraction: trailing zero trimmed, but at least one
digit, and a leading zero for a single-hundredth digit. -/
def fracChars (fr : Nat) : Chars :=
  if fr = 0 then ['0']
  else if fr % 10 = 0 then natDigits (fr / 10)
  else if fr < 10 then '0' :: natDigits fr
  else natDigits fr

/-- Model of Python str() on a nonnegative float that holds an exact
multiple of 0.01 (which is what round(x, 2) produces for the accuracy
percentages): shortest decimal form with at least one fractional digit,
e.g. 100.0, 33.33, 9.5, 9.05. -/
def accStr (q : ℚ) : Chars :=
  natDigits (hundredths q / 100) ++ '.' :: fracChars (hundredths q % 100)

/-- One leaderboard row: (Username, Accuracy, Timestamp), as built at
src/app.py lines 82-86. -/
structure Row where
  username : Chars
  accuracy : ℚ
  timestamp : Chars
deriving DecidableEq

/-- Fixed header of leaderboard.csv, fixed by the DataFrame columns at
src/app.py line 32 and by every saved file. -/
def headerLine : Chars := "Username,Accuracy,Timestamp".data

/-- One CSV data line for a row, as pandas to_csv writes it for fields
that need no quoting. -/
def rowLine (r : Row) : Chars :=
  r.username ++ ',' :: (accStr r.accuracy ++ ',' :: r.timestamp)

/-- Model of DataFrame.to_csv(index=False): header line, then one line per
row, each line terminated by a newline (src/app.py line 35). -/
def toCsv (t : List Row) : Chars :=
  headerLine ++ '\n' :: (t.map (fun r => rowLine r ++ ['\n'])).flatten

/-- Model of how pandas read_csv parses the Accuracy field: a plain
nonnegative decimal numeral, with or without a fractional part. -/
def parseAccChars (s : Chars) : Option ℚ :=
  match splitOnC '.' s with
  | [ip] => (digitsToNat? ip).map (fun i => (i : ℚ))
  | [ip, fp] =>
    match digitsToNat? ip, digitsToNat? fp with
    | some i, some f => some ((i : ℚ) + (f : ℚ) / 10 ^ fp.length)
    | _, _ => none
  | _ => none

/-- Parse one unquoted three-field CSV data line into a Row. -/
def parseLine (l : Chars) : Option Row :=
  match splitOnC ',' l with
  | [u, a, t] => (parseAccChars a).map (fun q => ⟨u, q, t⟩)
  | _ => none

/-- Model of pandas.read_csv on the leaderboard file (src/app.py line 30),
restricted to the unquoted three-column format this app reads and writes:
the first line must be the fixed header, blank lines are skipped
(read_csv default), every data line must parse; any other content is a
parse failure (an exception in the Python code). -/
def read_csv (c : Chars) : Option (List Row) :=
  match splitOnC '\n' c with
  | [] => none
  | h :: rest =>
    if h = headerLine then (rest.filter (fun l => l ≠ [])).mapM parseLine else none

/-- load_leaderboard (src/app.py lines 28-32): an absent file yields the
empty table with the fixed columns; an existing file is parsed (none here
means the read raised). -/
def load_leaderboard (file : Option Chars) : Option (List Row) :=
  match file with
  | none => some []
  | some c => read_csv c

/-- save_leaderboard (src/app.py lines 34-35): the written file content. -/
def save_leaderboard (t : List Row) : Chars := toCsv t

/-- A decoded image; only its pixel geometry is modelled (pixel values are
irrelevant to every claim, since inference is an opaque collaborator). -/
structure Img where
  width : Nat
  height : Nat
deriving DecidableEq

/-- Model of PIL Image.resize(size): per the PIL documentation the size
argument is the pair (width, height), and the result has exactly that
geometry regardless of the input image. -/
def pilResize (_img : Img) (size : Nat × Nat) : Img :=
  { width := size.1, height := size.2 }

/-- The list of resized images built inside evaluate_model
(src/app.py line 38) and handed, stacked, to model.predict. -/
def resizedBatch (pil_images : List Img) (input_size : Nat × Nat) : List Img :=
  pil_images.map (fun img => pilResize img input_size)

def argmaxAux : Nat → ℚ → Nat → List ℚ → Nat
  | bi, _, _, [] => bi
  | bi, bv, i, x :: xs =>
    if bv < x then argmaxAux i x (i+1) xs else argmaxAux bi bv (i+1) xs

/-- Model of np.argmax on one score row: index of the first maximum
(0 on an empty row). -/
def argmax : List ℚ → Nat
  | [] => 0
  | x :: xs => argmaxAux 0 x 1 xs

/-- Model of (y_pred == y).mean() (src/app.py line 42): fraction of
positions where prediction and label agree. -/
def matchMean (y_pred y : List Nat) : ℚ :=
  (List.zipWith (fun a b => if a = b then (1 : ℚ) else 0) y_pred y).sum
    / (y.length : ℚ)

/-- The loaded model capability: its declared input shape (a tuple whose
entries are either a wildcard None or a concrete dimension) and its
batched inference, which may raise (modelled as Except). -/
structure Model where
  input_shape : List (Option Nat)
  predict : List Img → Except String (List (List ℚ))

/-- evaluate_model (src/app.py lines 37-43): resize every cached image to
input_size, run one batched inference, argmax-decode each output row and
compare to the ground truth.  An exception in inference propagates to the
caller; pixel normalization by 255 does not change the geometry and is
absorbed into the opaque predict. -/
def evaluate_model (model : Model) (pil_images : List Img) (y : List Nat)
    (input_size : Nat × Nat) : Except String ℚ :=
  match model.predict (resizedBatch pil_images input_size) with
  | .error e => .error e
  | .ok preds => .ok (matchMean (preds.map argmax) y)

/-- Model of Python round() on an exact rational: round half to even. -/
def roundHalfEven (q : ℚ) : ℤ :=
  if q - (⌊q⌋ : ℚ) < 1/2 then ⌊q⌋
  else if (1 : ℚ)/2 < q - (⌊q⌋ : ℚ) then ⌊q⌋ + 1
  else if 2 ∣ ⌊q⌋ then ⌊q⌋ else ⌊q⌋ + 1

/-- Model of Python round(x, nd) on an exact rational. -/
def pyRound (x : ℚ) (nd : Nat) : ℚ :=
  (roundHalfEven (x * 10 ^ nd) : ℚ) / 10 ^ nd

/-- The user-visible messages the submit handler can emit
(st.success / st.error / st.warning calls in src/app.py lines 76-112). -/
inductive Msg where
  | successMsg (acc : ℚ)
  | errRun (e : String)
  | errShape (shape : List (Option Nat))
  | errNoneDim
  | errLoad (e : String)
  | warnNoFile
  | warnNoUsername
deriving DecidableEq

def isFailureMsg : Msg → Bool
  | .successMsg _ => false
  | _ => true

/-- Filesystem effects of one submission, in order: the scoped temporary
file for the artifact (created, written, deleted by the context manager at
src/app.py lines 66-68) and leaderboard saves. -/
inductive FsEvent where
  | tmpCreate
  | tmpWrite
  | saveBoard (t : List Row)
  | tmpDelete
deriving DecidableEq

/-- Inputs to one submit interaction: the button state, the optional
uploaded artifact, the entered username, the outcome of deserializing the
artifact (tf.keras.models.load_model may raise), the current timestamp
string, and the leaderboard file currently on disk. -/
structure SubmitCtx where
  submit : Bool
  uploaded_file : Option Unit
  username : Chars
  load_model : Except String Model
  now : Chars
  file : Option Chars

/-- Everything observable about one submit interaction: the in-memory
leaderboard afterwards, the messages shown, every save_leaderboard call,
whether evaluate_model was invoked, the filesystem events, and the
leaderboard file content afterwards. -/
structure SubmitResult where
  leaderboard : List Row
  msgs : List Msg
  saveCalls : List (List Row)
  ranEval : Bool
  fsEvents : List FsEvent
  fileAfter : Option Chars
deriving DecidableEq

/-- Assemble the result of a submission that reached the temporary file:
the context manager brackets the body's events with creation and
guaranteed deletion, and the file on disk changes only by an executed
save_leaderboard call. -/
def mkTmpResult (ctx : SubmitCtx) (msgs : List Msg) (lb2 : List Row)
    (saves : List (List Row)) (ran : Bool) (mid : List FsEvent) : SubmitResult :=
  { leaderboard := lb2
    msgs := msgs
    saveCalls := saves
    ranEval := ran
    fsEvents := [FsEvent.tmpCreate, FsEvent.tmpWrite] ++ mid ++ [FsEvent.tmpDelete]
    fileAfter := (saves.getLast?).elim ctx.file (fun t => some (save_leaderboard t)) }

/-- A submission result in which nothing at all happened beyond messages. -/
def mkPlainResult (ctx : SubmitCtx) (lb : List Row) (msgs : List Msg) : SubmitResult :=
  { leaderboard := lb
    msgs := msgs
    saveCalls := []
    ranEval := false
    fsEvents := []
    fileAfter := ctx.file }

/-- The submit handler (src/app.py lines 64-112): guard on button, file and
stripped username; persist the artifact to a scoped temporary file; load
the model; accept only a 4-dimensional input shape whose last entry is 3;
inside that, reject a wildcard height or width; otherwise evaluate, and on
success append one row (original username, round(acc*100, 2), timestamp)
and save; each failure shows its specific message.  The two elif branches
reproduce the missing-file / missing-username warnings of lines 109-112. -/
def submitHandler (ctx : SubmitCtx) (lb : List Row) (raw_images : List Img)
    (y_test : List Nat) : SubmitResult :=
  if ctx.submit ∧ ctx.uploaded_file.isSome ∧ pyStrip ctx.username ≠ [] then
    match ctx.load_model with
    | .error e => mkTmpResult ctx [Msg.errLoad e] lb [] false []
    | .ok model =>
      if model.input_shape.length = 4 ∧ model.input_shape.getLast? = some (some 3) then
        if model.input_shape.getD 1 none = none ∨ model.input_shape.getD 2 none = none then
          mkTmpResult ctx [Msg.errNoneDim] lb [] false []
        else
          match evaluate_model model raw_images y_test
              ((model.input_shape.getD 1 none).getD 0,
               (model.input_shape.getD 2 none).getD 0) with
          | .error e => mkTmpResult ctx [Msg.errRun e] lb [] true []
          | .ok acc =>
            mkTmpResult ctx [Msg.successMsg acc]
              (lb ++ [⟨ctx.username, pyRound (acc * 100) 2, ctx.now⟩])
              [lb ++ [⟨ctx.username, pyRound (acc * 100) 2, ctx.now⟩]] true
              [FsEvent.saveBoard (lb ++ [⟨ctx.username, pyRound (acc * 100) 2, ctx.now⟩])]
      else
        mkTmpResult ctx [Msg.errShape model.input_shape] lb [] false []
  else if ctx.submit ∧ ¬ ctx.uploaded_file.isSome then
    mkPlainResult ctx lb [Msg.warnNoFile]
  else if ctx.submit ∧ pyStrip ctx.username = [] then
    mkPlainResult ctx lb [Msg.warnNoUsername]
  else
    mkPlainResult ctx lb []

/-- One displayed leaderboard row after line 119 of src/app.py: the
Accuracy column has been replaced by its string form with a percent sign
appended. -/
def displayRow (r : Row) : Chars × Chars × Chars :=
  (r.username, accStr r.accuracy ++ ' ' :: ['%'], r.timestamp)

def insertDisp (x : Chars × Chars × Chars) :
    List (Chars × Chars × Chars) → List (Chars × Chars × Chars)
  | [] => [x]
  | y :: ys => if strLt x.2.1 y.2.1 then y :: insertDisp x ys else x :: y :: ys

/-- Descending sort on the (string-valued) Accuracy column, modelling
sort_values("Accuracy", ascending=False) after the astype(str)
conversion. -/
def sortDispDesc : List (Chars × Chars × Chars) → List (Chars × Chars × Chars)
  | [] => []
  | x :: xs => insertDisp x (sortDispDesc xs)

/-- The displayed leaderboard (src/app.py lines 118-120): convert the
Accuracy column to strings with " %" appended, then sort that column
descending.  The sort therefore compares strings, not numbers. -/
def leaderboard_display (lb : List Row) : List (Chars × Chars × Chars) :=
  sortDispDesc (lb.map displayRow)

def CLASS_NAMES : List Chars := ["A".data, "B".data, "C".data]

def TEST_IMAGE_DIR : Chars := "test_images".data

/-- Model of os.path.join for plain relative components. -/
def pathJoin (a b : Chars) : Chars := a ++ '/' :: b

def insertFile (x : Chars) : List Chars → List Chars
  | [] => [x]
  | y :: ys => if strLt y x then y :: insertFile x ys else x :: y :: ys

/-- Model of Python sorted() on filenames: stable sort by code-point
lexicographic order. -/
def sortFiles : List Chars → List Chars
  | [] => []
  | x :: xs => insertFile x (sortFiles xs)

/-- load_raw_test_images (src/app.py lines 17-26): walk the class folders
in CLASS_NAMES order, visit each folder's files in sorted order, decode
each one and record the class index as its label.  The directory listing
and the image decoder are the filesystem and PIL collaborators, passed in
as opaque functions. -/
def load_raw_test_images (listdir : Chars → List Chars) (openImg : Chars → Img) :
    List Img × List Nat :=
  CLASS_NAMES.enum.foldl
    (fun acc p =>
      (sortFiles (listdir (pathJoin TEST_IMAGE_DIR p.2))).foldl
        (fun acc2 fname =>
          (acc2.1 ++ [openImg (pathJoin (pathJoin TEST_IMAGE_DIR p.2) fname)],
           acc2.2 ++ [p.1]))
        acc)
    ([], [])

/-- A field value that pandas reads back verbatim and writes unquoted:
nonempty, with no separator, newline or quote character. -/
def okField (s : Chars) : Bool :=
  s ≠ [] && s.all (fun c => c ≠ ',' && c ≠ '\n' && c ≠ '"')

/-- A well-formed leaderboard row: text fields that survive the CSV round
trip verbatim, and an accuracy that is a nonnegative exact multiple of
0.01 (as every stored round(acc*100, 2) value is). -/
def WFRow (r : Row) : Prop :=
  okField r.username = true ∧ okField r.timestamp = true ∧
    r.accuracy.den ∣ 100 ∧ 0 ≤ r.accuracy.num

instance : DecidablePred WFRow := fun r => by
  unfold WFRow; infer_instance

/-- A well-formed table: every row is well-formed. -/
def WFTable (t : List Row) : Prop := ∀ r ∈ t, WFRow r

instance : DecidablePred WFTable := fun t => by
  unfold WFTable; infer_instance

/-- A well-formed leaderboard file: content in the fixed three-column
format, i.e. what saving some well-formed table produces. -/
def WFContent (c : Chars) : Prop := ∃ t, WFTable t ∧ c = toCsv t

/-- A concrete always-class-0 model with declared input shape
(None, 64, 64, 3), used to exercise the handler on explicit inputs. -/
def constModel : Model :=
  { input_shape := [none, some 64, some 64, some 3]
    predict := fun imgs => Except.ok (imgs.map (fun _ => [1, 0, 0])) }

/-- A concrete model whose declared channel count is 1, not 3. -/
def badShapeModel : Model :=
  { input_shape := [none, some 64, some 64, some 1]
    predict := fun imgs => Except.ok (imgs.map (fun _ => [1, 0, 0])) }

def demoImgs : List Img := [⟨5, 7⟩, ⟨3, 3⟩, ⟨9, 2⟩]

def demoLabels : List Nat := [0, 1, 2]

def demoPreds : List (List ℚ) := [[1, 0, 0], [1, 0, 0], [1, 0, 0]]

def demoTime : Chars := "2024-01-02 03:04:05".data

/-- A fully valid submission context. -/
def demoCtx : SubmitCtx :=
  ⟨true, some (), "alice".data, Except.ok constModel, demoTime, none⟩

/-- A valid submission whose username carries surrounding whitespace. -/
def demoCtxWs : SubmitCtx :=
  ⟨true, some (), " alice ".data, Except.ok constModel, demoTime, none⟩

/-- A submission with a loadable model of unsupported shape. -/
def demoCtxBad : SubmitCtx :=
  ⟨true, some (), "alice".data, Except.ok badShapeModel, demoTime, none⟩

/-- A submission with a blank (whitespace-only) username. -/
def demoCtxNoUser : SubmitCtx :=
  ⟨true, some (), "   ".data, Except.ok constModel, demoTime, none⟩

/-- A submission with no uploaded file and a blank username. -/
def demoCtxMissingBoth : SubmitCtx :=
  ⟨true, none, "  ".data, Except.ok constModel, demoTime, none⟩

/-- A concrete directory listing (deliberately unsorted). -/
def demoListdir : Chars → List Chars := fun _ => ["b.png".data, "a.png".data]

/-- A concrete image decoder. -/
def demoOpen : Chars → Img := fun _ => ⟨10, 20⟩

/-- A concrete well-formed leaderboard table. -/
def demoTable : List Row :=
  [⟨"alice".data, 100, "2024-01-02 03:04:05".data⟩,
   ⟨"bob".data, 9, "2024-01-01 00:00:00".data⟩]

/-- The nonstrict file order: a comes at or before b (used to state that
sorted() output is lexicographically ordered). -/
def fileLe (a b : Chars) : Prop := strLt b a = false

/-! ## Helper lemmas: decimal digits -/

theorem digitChar_toNat : ∀ d, d < 10 → (Char.ofNat (48 + d)).toNat = 48 + d := by
  decide

theorem digitChar_isDigit : ∀ d, d < 10 → isDigitCh (Char.ofNat (48 + d)) = true := by
  decide

theorem isDigitCh_ne (c : Char) (h : isDigitCh c = true) :
    c ≠ ',' ∧ c ≠ '\n' ∧ c ≠ '.' ∧ c ≠ '"' := by
  refine ⟨?_, ?_, ?_, ?_⟩ <;> (intro hc; subst hc; simp [isDigitCh] at h)

theorem digitsVal_append (xs : Chars) (c : Char) :
    digitsVal (xs ++ [c]) = 10 * digitsVal xs + (c.toNat - 48) := by
  simp [digitsVal, List.foldl_append]

theorem natDigitsAux_spec : ∀ fuel n, 0 < n → n ≤ fuel →
    (natDigitsAux fuel n).all isDigitCh = true ∧ natDigitsAux fuel n ≠ [] ∧
      digitsVal (natDigitsAux fuel n) = n := by
  intro fuel
  induction fuel with
  | zero => intro n h1 h2; omega
  | succ f ih =>
    rintro (_ | m) h1 h2
    · omega
    · have hrec : natDigitsAux (f+1) (m+1)
          = natDigitsAux f ((m+1) / 10) ++ [Char.ofNat (48 + (m+1) % 10)] := rfl
      have hdig : isDigitCh (Char.ofNat (48 + (m+1) % 10)) = true :=
        digitChar_isDigit _ (by omega)
      have htn : (Char.ofNat (48 + (m+1) % 10)).toNat = 48 + (m+1) % 10 :=
        digitChar_toNat _ (by omega)
      by_cases h10 : (m+1) / 10 = 0
      · have hnil : natDigitsAux f ((m+1)/10) = [] := by
          rw [h10]; cases f <;> rfl
        rw [hrec, hnil]
        refine ⟨by simp [hdig], by simp, ?_⟩
        have hm : m + 1 < 10 := by
          by_contra hge
          have := Nat.div_le_div_right (c := 10) (Nat.le_of_not_lt hge)
          simp at this; omega
        simp only [List.nil_append]
        have : digitsVal [Char.ofNat (48 + (m+1) % 10)]
            = 10 * digitsVal [] + ((Char.ofNat (48 + (m+1) % 10)).toNat - 48) :=
          digitsVal_append [] _
        simp [digitsVal] at this ⊢
        omega
      · have hlt : (m+1)/10 < m+1 := Nat.div_lt_self (by omega) (by omega)
        obtain ⟨ha, hb, hc⟩ := ih ((m+1)/10) (by omega) (by omega)
        rw [hrec]
        refine ⟨?_, by simp, ?_⟩
        · simp [List.all_append, ha, hdig]
        · rw [digitsVal_append, hc, htn]
          omega

theorem natDigits_spec (n : Nat) :
    (natDigits n).all isDigitCh = true ∧ natDigits n ≠ [] ∧
      digitsVal (natDigits n) = n := by
  by_cases h : n = 0
  · subst h; refine ⟨by decide, by decide, by decide⟩
  · have := natDigitsAux_spec n n (by omega) (le_refl n)
    simpa [natDigits, h] using this

theorem digitsToNat?_natDigits (n : Nat) : digitsToNat? (natDigits n) = some n := by
  obtain ⟨ha, hb, hc⟩ := natDigits_spec n
  simp [digitsToNat?, ha, hb, hc]

theorem not_mem_of_all_digits {s : Chars} (h : s.all isDigitCh = true)
    {c : Char} (hc : isDigitCh c = false) : c ∉ s := by
  intro hmem
  have := List.all_eq_true.mp h c hmem
  simp [this] at hc

/-! ## Helper lemmas: splitting -/

theorem splitOnC_ne_nil (sep : Char) (s : Chars) : splitOnC sep s ≠ [] := by
  induction s with
  | nil => simp [splitOnC]
  | cons c cs ih =>
    simp only [splitOnC]
    match hsp : splitOnC sep cs with
    | [] => simp
    | f :: rest => by_cases hc : c = sep <;> simp [hc]

theorem splitOnC_of_not_mem (sep : Char) (s : Chars) (h : sep ∉ s) :
    splitOnC sep s = [s] := by
  induction s with
  | nil => rfl
  | cons c cs ih =>
    have hc : c ≠ sep := by rintro rfl; exact h (List.mem_cons_self c cs)
    have hcs : sep ∉ cs := fun hm => h (List.mem_cons_of_mem c hm)
    simp only [splitOnC, ih hcs]
    simp [hc]

theorem splitOnC_append_sep (sep : Char) (xs ys : Chars) (h : sep ∉ xs) :
    splitOnC sep (xs ++ sep :: ys) = xs :: splitOnC sep ys := by
  induction xs with
  | nil =>
    simp only [List.nil_append, splitOnC]
    match hsp : splitOnC sep ys with
    | [] => exact absurd hsp (splitOnC_ne_nil sep ys)
    | f :: rest => simp
  | cons c cs ih =>
    have hc : c ≠ sep := by rintro rfl; exact h (List.mem_cons_self c cs)
    have hcs : sep ∉ cs := fun hm => h (List.mem_cons_of_mem c hm)
    show splitOnC sep (c :: (cs ++ sep :: ys)) = (c :: cs) :: splitOnC sep ys
    simp only [splitOnC]
    rw [ih hcs]
    simp [hc]

/-! ## Helper lemmas: accuracy strings -/

theorem fracChars_spec : ∀ fr, fr < 100 →
    (fracChars fr).all isDigitCh = true ∧ fracChars fr ≠ [] ∧
      (fracChars fr).length ≤ 2 ∧
      digitsVal (fracChars fr) * 10 ^ (2 - (fracChars fr).length) = fr := by
  decide

theorem hundredths_eq (q : ℚ) (hden : q.den ∣ 100) (hnum : 0 ≤ q.num) :
    q * 100 = ((hundredths q : ℕ) : ℚ) := by
  obtain ⟨k, hk⟩ := hden
  have hk0 : k ≠ 0 := by
    intro h; rw [h, Nat.mul_zero] at hk; exact absurd hk (by omega)
  have h100 : 100 / q.den = k := by
    rw [hk]; exact Nat.mul_div_cancel_left k q.pos
  have hcast : (q.num.toNat : ℚ) = ((q.num : ℤ) : ℚ) := by
    exact_mod_cast congrArg (fun z : ℤ => (z : ℚ)) (Int.toNat_of_nonneg hnum)
  have hval : ((hundredths q : ℕ) : ℚ) = ((q.num : ℤ) : ℚ) * (k : ℚ) := by
    unfold hundredths
    rw [h100]
    push_cast
    rw [hcast]
  have h100q : (100 : ℚ) = (q.den : ℚ) * (k : ℚ) := by
    exact_mod_cast congrArg (fun n : ℕ => (n : ℚ)) hk
  have hd : (q.den : ℚ) ≠ 0 := by
    exact_mod_cast q.den_nz
  calc q * 100 = ((q.num : ℤ) : ℚ) / (q.den : ℚ) * ((q.den : ℚ) * (k : ℚ)) := by
        rw [Rat.num_div_den q, ← h100q]
    _ = ((q.num : ℤ) : ℚ) * (k : ℚ) := by
        rw [div_mul_eq_mul_div, mul_comm ((q.den : ℚ)) ((k : ℚ)), ← mul_assoc,
          mul_div_cancel_right₀ _ hd]
    _ = ((hundredths q : ℕ) : ℚ) := hval.symm

theorem parseAccChars_accStr (q : ℚ) (hden : q.den ∣ 100) (hnum : 0 ≤ q.num) :
    parseAccChars (accStr q) = some q := by
  obtain ⟨hfa, hfn, hfl, hfv⟩ := fracChars_spec (hundredths q % 100) (Nat.mod_lt _ (by omega))
  obtain ⟨hia, hin, hiv⟩ := natDigits_spec (hundredths q / 100)
  have hdotInt : '.' ∉ natDigits (hundredths q / 100) :=
    not_mem_of_all_digits hia (by decide)
  have hdotFrac : '.' ∉ fracChars (hundredths q % 100) :=
    not_mem_of_all_digits hfa (by decide)
  have hfrac : digitsToNat? (fracChars (hundredths q % 100))
      = some (digitsVal (fracChars (hundredths q % 100))) := by
    simp [digitsToNat?, hfa, hfn]
  have hsplit : splitOnC '.' (accStr q)
      = [natDigits (hundredths q / 100), fracChars (hundredths q % 100)] := by
    unfold accStr
    rw [splitOnC_append_sep '.' _ _ hdotInt, splitOnC_of_not_mem '.' _ hdotFrac]
  unfold parseAccChars
  rw [hsplit]
  simp only [digitsToNat?_natDigits, hfrac]
  congr 1
  set L := (fracChars (hundredths q % 100)).length with hL
  set v := digitsVal (fracChars (hundredths q % 100)) with hv
  have hvq : (v : ℚ) / 10 ^ L = ((hundredths q % 100 : ℕ) : ℚ) / 100 := by
    have h2 : (10 : ℚ) ^ L * 10 ^ (2 - L) = 10 ^ 2 := by
      rw [← pow_add]
      congr 1
      omega
    have hvv : ((v * 10 ^ (2 - L) : ℕ) : ℚ) = ((hundredths q % 100 : ℕ) : ℚ) := by
      exact_mod_cast congrArg (fun n : ℕ => (n : ℚ)) hfv
    rw [div_eq_div_iff (by positivity) (by norm_num)]
    push_cast at hvv ⊢
    calc (v : ℚ) * 100 = (v : ℚ) * 10 ^ 2 := by norm_num
      _ = (v : ℚ) * (10 ^ L * 10 ^ (2 - L)) := by rw [h2]
      _ = ((v : ℚ) * 10 ^ (2 - L)) * 10 ^ L := by ring
      _ = ((hundredths q % 100 : ℕ) : ℚ) * 10 ^ L := by rw [hvv]
  rw [hvq]
  have hmod : ((hundredths q % 100 : ℕ) : ℚ)
      = ((hundredths q : ℕ) : ℚ) - 100 * ((hundredths q / 100 : ℕ) : ℚ) := by
    have := Nat.div_add_mod (hundredths q) 100
    have hcast : ((100 * (hundredths q / 100) + hundredths q % 100 : ℕ) : ℚ)
        = ((hundredths q : ℕ) : ℚ) := by
      exact_mod_cast congrArg (fun n : ℕ => (n : ℚ)) this
    push_cast at hcast
    linarith
  rw [hmod, ← hundredths_eq q hden hnum]
  ring

/-! ## Helper lemmas: CSV round trip -/

theorem okField_not_mem {s : Chars} (h : okField s = true) {c : Char} (hc : c ∈ s) :
    c ≠ ',' ∧ c ≠ '\n' ∧ c ≠ '"' := by
  simp only [okField, Bool.and_eq_true, List.all_eq_true] at h
  have := h.2 c hc
  simp only [decide_eq_true_eq, Bool.and_eq_true] at this
  exact ⟨this.1.1, this.1.2, this.2⟩

theorem okField_ne_nil {s : Chars} (h : okField s = true) : s ≠ [] := by
  simp only [okField, Bool.and_eq_true] at h
  simpa using h.1

theorem comma_not_mem_okField {s : Chars} (h : okField s = true) : ',' ∉ s :=
  fun hm => absurd rfl (okField_not_mem h hm).1

theorem newline_not_mem_okField {s : Chars} (h : okField s = true) : '\n' ∉ s :=
  fun hm => absurd rfl (okField_not_mem h hm).2.1

theorem accStr_chars (q : ℚ) {c : Char} (hc : c ∈ accStr q) :
    isDigitCh c = true ∨ c = '.' := by
  unfold accStr at hc
  rcases List.mem_append.mp hc with h1 | h2
  · exact Or.inl (List.all_eq_true.mp (natDigits_spec _).1 c h1)
  · rcases List.mem_cons.mp h2 with h3 | h4
    · exact Or.inr h3
    · exact Or.inl (List.all_eq_true.mp
        (fracChars_spec (hundredths q % 100) (Nat.mod_lt _ (by omega))).1 c h4)

theorem comma_not_mem_accStr (q : ℚ) : ',' ∉ accStr q := by
  intro hm
  rcases accStr_chars q hm with h | h
  · simp [isDigitCh] at h
  · exact absurd h (by decide)

theorem newline_not_mem_accStr (q : ℚ) : '\n' ∉ accStr q := by
  intro hm
  rcases accStr_chars q hm with h | h
  · simp [isDigitCh] at h
  · exact absurd h (by decide)

theorem parseLine_rowLine (r : Row) (h : WFRow r) : parseLine (rowLine r) = some r := by
  obtain ⟨hu, ht, hden, hnum⟩ := h
  unfold parseLine rowLine
  rw [splitOnC_append_sep ',' _ _ (comma_not_mem_okField hu),
    splitOnC_append_sep ',' _ _ (comma_not_mem_accStr r.accuracy),
    splitOnC_of_not_mem ',' _ (comma_not_mem_okField ht)]
  simp only [parseAccChars_accStr r.accuracy hden hnum, Option.map]

theorem rowLine_ne_nil (r : Row) : rowLine r ≠ [] := by
  unfold rowLine
  cases hu : r.username <;> simp

theorem newline_not_mem_rowLine (r : Row) (h : WFRow r) : '\n' ∉ rowLine r := by
  obtain ⟨hu, ht, _, _⟩ := h
  unfold rowLine
  intro hm
  rcases List.mem_append.mp hm with h1 | h2
  · exact newline_not_mem_okField hu h1
  · rcases List.mem_cons.mp h2 with h3 | h4
    · exact absurd h3 (by decide)
    · rcases List.mem_append.mp h4 with h5 | h6
      · exact newline_not_mem_accStr r.accuracy h5
      · rcases List.mem_cons.mp h6 with h7 | h8
        · exact absurd h7 (by decide)
        · exact newline_not_mem_okField ht h8

theorem splitOnC_newline_body (t : List Row) (h : WFTable t) :
    splitOnC '\n' ((t.map (fun r => rowLine r ++ ['\n'])).flatten)
      = t.map rowLine ++ [[]] := by
  induction t with
  | nil => rfl
  | cons r rs ih =>
    have hr : WFRow r := h r (List.mem_cons_self r rs)
    have hrs : WFTable rs := fun x hx => h x (List.mem_cons_of_mem _ hx)
    simp only [List.map_cons, List.flatten_cons, List.append_assoc, List.singleton_append]
    rw [splitOnC_append_sep '\n' _ _ (newline_not_mem_rowLine r hr), ih hrs]
    simp

theorem mapM_parseLine_rowLine (t : List Row) (h : WFTable t) :
    (t.map rowLine).mapM parseLine = some t := by
  induction t with
  | nil => rfl
  | cons r rs ih =>
    have hr : WFRow r := h r (List.mem_cons_self r rs)
    have hrs : WFTable rs := fun x hx => h x (List.mem_cons_of_mem _ hx)
    rw [List.map_cons, List.mapM_cons, parseLine_rowLine r hr, ih hrs]
    rfl

theorem read_csv_toCsv (t : List Row) (h : WFTable t) : read_csv (toCsv t) = some t := by
  unfold read_csv toCsv
  have hh : '\n' ∉ headerLine := by decide
  rw [splitOnC_append_sep '\n' _ _ hh, splitOnC_newline_body t h]
  simp only [if_pos, ite_self, if_true, reduceIte]
  have hfilter : (t.map rowLine ++ [[]]).filter (fun l => decide (l ≠ [])) = t.map rowLine := by
    rw [List.filter_append]
    have h1 : (t.map rowLine).filter (fun l => decide (l ≠ [])) = t.map rowLine := by
      apply List.filter_eq_self.mpr
      intro a ha
      obtain ⟨r, _, hr⟩ := List.mem_map.mp ha
      simp [← hr, rowLine_ne_nil r]
    have h2 : ([([] : Chars)]).filter (fun l => decide (l ≠ [])) = [] := by decide
    rw [h1, h2, List.append_nil]
  rw [hfilter, mapM_parseLine_rowLine t h]

/-! ## Helper lemmas: lexicographic order and sorting -/

theorem strLt_asymm : ∀ a b : Chars, strLt a b = true → strLt b a = false := by
  intro a
  induction a with
  | nil => intro b _; cases b <;> rfl
  | cons x xs ih =>
    intro b hab
    cases b with
    | nil => simp [strLt] at hab
    | cons y ys =>
      simp only [strLt] at hab ⊢
      by_cases hxy : x < y
      · have : ¬ y < x := lt_asymm hxy
        have : y ≠ x := ne_of_gt hxy
        simp [*]
      · by_cases hyx : y < x
        · simp [hxy, ne_of_gt hyx] at hab
        · have hx : x = y := le_antisymm (le_of_not_lt hyx) (le_of_not_lt hxy)
          subst hx
          simp only [hxy, if_false, if_pos rfl] at hab ⊢
          simp [lt_irrefl] at hab ⊢
          exact ih ys hab

theorem strLt_conn : ∀ a b : Chars, strLt a b = false → strLt b a = false → a = b := by
  intro a
  induction a with
  | nil => intro b h1 _; cases b with
    | nil => rfl
    | cons y ys => simp [strLt] at h1
  | cons x xs ih =>
    intro b h1 h2
    cases b with
    | nil => simp [strLt] at h2
    | cons y ys =>
      simp only [strLt] at h1 h2
      by_cases hxy : x < y
      · simp [hxy] at h1
      · by_cases hyx : y < x
        · simp [hyx] at h2
        · have hx : x = y := le_antisymm (le_of_not_lt hyx) (le_of_not_lt hxy)
          subst hx
          simp [lt_irrefl] at h1 h2
          exact congrArg (x :: ·) (ih ys h1 h2)

theorem strLt_trans : ∀ a b c : Chars,
    strLt a b = true → strLt b c = true → strLt a c = true := by
  intro a
  induction a with
  | nil =>
    intro b c hab hbc
    cases b with
    | nil => simp [strLt] at hab
    | cons y ys => cases c with
      | nil => simp [strLt] at hbc
      | cons z zs => rfl
  | cons x xs ih =>
    intro b c hab hbc
    cases b with
    | nil => simp [strLt] at hab
    | cons y ys =>
      cases c with
      | nil => simp [strLt] at hbc
      | cons z zs =>
        simp only [strLt] at hab hbc ⊢
        by_cases hxy : x < y
        · by_cases hyz : y < z
          · simp [lt_trans hxy hyz]
          · by_cases hyz2 : y = z
            · subst hyz2; simp [hxy]
            · simp [hyz, hyz2] at hbc
        · by_cases hxy2 : x = y
          · subst hxy2
            by_cases hyz : x < z
            · simp [hyz]
            · by_cases hyz2 : x = z
              · subst hyz2
                simp [lt_irrefl] at hab hbc ⊢
                exact ih ys zs hab hbc
              · simp [hyz, hyz2] at hbc
          · simp [hxy, hxy2] at hab

theorem fileLe_trans {a b c : Chars} (h1 : fileLe a b) (h2 : fileLe b c) : fileLe a c := by
  unfold fileLe at *
  by_cases hca : strLt c a = true
  · by_cases hcb : strLt c b = true
    · rw [hcb] at h2; cases h2
    · have hcb' : strLt c b = false := by
        cases hx : strLt c b
        · rfl
        · exact absurd hx hcb
      by_cases hbc : strLt b c = true
      · have := strLt_trans b c a hbc hca
        rw [this] at h1; cases h1
      · have hbc' : strLt b c = false := by
          cases hx : strLt b c
          · rfl
          · exact absurd hx hbc
        have := strLt_conn b c hbc' hcb'
        subst this
        rw [hca] at h1; cases h1
  · cases hx : strLt c a
    · rfl
    · exact absurd hx hca

theorem fileLe_total (a b : Chars) : fileLe a b ∨ fileLe b a := by
  unfold fileLe
  by_cases h : strLt b a = true
  · exact Or.inr (strLt_asymm b a h)
  · left
    cases hx : strLt b a
    · rfl
    · exact absurd hx h

theorem insertFile_perm (x : Chars) : ∀ l : List Chars,
    List.Perm (insertFile x l) (x :: l) := by
  intro l
  induction l with
  | nil => exact List.Perm.refl _
  | cons y ys ih =>
    unfold insertFile
    by_cases h : strLt y x = true
    · simp only [h, if_true]
      exact List.Perm.trans (List.Perm.cons y ih) (List.Perm.swap x y ys)
    · simp [h]

theorem insertFile_sorted (x : Chars) : ∀ l : List Chars,
    List.Sorted fileLe l → List.Sorted fileLe (insertFile x l) := by
  intro l
  induction l with
  | nil => intro _; simp [insertFile, List.Sorted]
  | cons y ys ih =>
    intro hs
    have hy := List.rel_of_sorted_cons hs
    have hys := List.sorted_cons.mp hs |>.2
    unfold insertFile
    by_cases h : strLt y x = true
    · simp only [h, if_true]
      apply List.sorted_cons.mpr
      refine ⟨?_, ih hys⟩
      intro b hb
      have hmem := (insertFile_perm x ys).mem_iff.mp hb
      rcases List.mem_cons.mp hmem with rfl | hbys
      · exact strLt_asymm y b h
      · exact hy b hbys
    · have hxf : strLt y x = false := by
        cases hx : strLt y x
        · rfl
        · exact absurd hx h
      simp only [h, if_false]
      apply List.sorted_cons.mpr
      refine ⟨?_, hs⟩
      intro b hb
      rcases List.mem_cons.mp hb with rfl | hbys
      · exact hxf
      · exact fileLe_trans hxf (hy b hbys)

theorem sortFiles_sorted : ∀ l : List Chars, List.Sorted fileLe (sortFiles l) := by
  intro l
  induction l with
  | nil => simp [sortFiles, List.Sorted]
  | cons x xs ih => exact insertFile_sorted x (sortFiles xs) ih

theorem sortFiles_perm : ∀ l : List Chars, List.Perm (sortFiles l) l := by
  intro l
  induction l with
  | nil => exact List.Perm.refl _
  | cons x xs ih =>
    exact List.Perm.trans (insertFile_perm x (sortFiles xs)) (List.Perm.cons x ih)

/-! ## Helper lemmas: the test-set loader -/

theorem loader_inner (folder : Chars) (idx : Nat) (openImg : Chars → Img) :
    ∀ (files : List Chars) (acc : List Img × List Nat),
      files.foldl
        (fun acc2 fname => (acc2.1 ++ [openImg (pathJoin folder fname)], acc2.2 ++ [idx]))
        acc
      = (acc.1 ++ files.map (fun fname => openImg (pathJoin folder fname)),
         acc.2 ++ List.replicate files.length idx) := by
  intro files
  induction files with
  | nil => intro acc; simp
  | cons f fs ih =>
    intro acc
    rw [List.foldl_cons, ih]
    simp [List.replicate_succ]

theorem loader_outer (listdir : Chars → List Chars) (openImg : Chars → Img) :
    ∀ (ps : List (Nat × Chars)) (acc : List Img × List Nat),
      ps.foldl
        (fun acc p =>
          (sortFiles (listdir (pathJoin TEST_IMAGE_DIR p.2))).foldl
            (fun acc2 fname =>
              (acc2.1 ++ [openImg (pathJoin (pathJoin TEST_IMAGE_DIR p.2) fname)],
               acc2.2 ++ [p.1]))
            acc)
        acc
      = (acc.1 ++ (ps.map (fun p =>
            (sortFiles (listdir (pathJoin TEST_IMAGE_DIR p.2))).map
              (fun fn => openImg (pathJoin (pathJoin TEST_IMAGE_DIR p.2) fn)))).flatten,
         acc.2 ++ (ps.map (fun p =>
            List.replicate (sortFiles (listdir (pathJoin TEST_IMAGE_DIR p.2))).length
              p.1)).flatten) := by
  intro ps
  induction ps with
  | nil => intro acc; simp
  | cons p rest ih =>
    intro acc
    rw [List.foldl_cons, loader_inner, ih]
    simp

theorem load_raw_test_images_eq (listdir : Chars → List Chars) (openImg : Chars → Img) :
    load_raw_test_images listdir openImg
      = ((CLASS_NAMES.enum.map (fun p =>
            (sortFiles (listdir (pathJoin TEST_IMAGE_DIR p.2))).map
              (fun fn => openImg (pathJoin (pathJoin TEST_IMAGE_DIR p.2) fn)))).flatten,
         (CLASS_NAMES.enum.map (fun p =>
            List.replicate (sortFiles (listdir (pathJoin TEST_IMAGE_DIR p.2))).length
              p.1)).flatten) := by
  unfold load_raw_test_images
  rw [loader_outer]
  simp

/-! ## Helper lemmas: accuracy as a fraction -/

theorem matchMean_count (yp y : List Nat) :
    matchMean yp y
      = ((List.zipWith (fun a b => decide (a = b)) yp y).count true : ℚ)
          / (y.length : ℚ) := by
  unfold matchMean
  congr 1
  induction yp generalizing y with
  | nil => cases y <;> simp
  | cons a as ih =>
    cases y with
    | nil => simp
    | cons b bs =>
      simp only [List.zipWith_cons_cons, List.sum_cons, ih bs]
      by_cases h : a = b
      · simp [h, List.count_cons, add_comm]
      · simp [h, List.count_cons]

/-! ## Helper lemmas: the submit handler -/

theorem submitHandler_success (ctx : SubmitCtx) (lb : List Row) (imgs : List Img)
    (y : List Nat) (m : Model) (acc : ℚ)
    (hsubmit : ctx.submit = true)
    (hfile : ctx.uploaded_file.isSome = true)
    (huser : pyStrip ctx.username ≠ [])
    (hload : ctx.load_model = Except.ok m)
    (hshape : m.input_shape.length = 4 ∧ m.input_shape.getLast? = some (some 3))
    (hH : m.input_shape.getD 1 none ≠ none)
    (hW : m.input_shape.getD 2 none ≠ none)
    (heval : evaluate_model m imgs y ((m.input_shape.getD 1 none).getD 0,
        (m.input_shape.getD 2 none).getD 0) = Except.ok acc) :
    submitHandler ctx lb imgs y
      = mkTmpResult ctx [Msg.successMsg acc]
          (lb ++ [⟨ctx.username, pyRound (acc * 100) 2, ctx.now⟩])
          [lb ++ [⟨ctx.username, pyRound (acc * 100) 2, ctx.now⟩]] true
          [FsEvent.saveBoard (lb ++ [⟨ctx.username, pyRound (acc * 100) 2, ctx.now⟩])] := by
  unfold submitHandler
  rw [if_pos ⟨hsubmit, hfile, huser⟩, hload]
  dsimp only
  rw [if_pos hshape, if_neg (by push_neg; exact ⟨hH, hW⟩), heval]

theorem submitHandler_cases (ctx : SubmitCtx) (lb : List Row) (imgs : List Img)
    (y : List Nat) :
    (∃ acc : ℚ,
        (submitHandler ctx lb imgs y).msgs = [Msg.successMsg acc] ∧
        (submitHandler ctx lb imgs y).leaderboard
          = lb ++ [⟨ctx.username, pyRound (acc * 100) 2, ctx.now⟩] ∧
        (submitHandler ctx lb imgs y).saveCalls
          = [lb ++ [⟨ctx.username, pyRound (acc * 100) 2, ctx.now⟩]] ∧
        (submitHandler ctx lb imgs y).fileAfter
          = some (save_leaderboard
              (lb ++ [⟨ctx.username, pyRound (acc * 100) 2, ctx.now⟩])))
    ∨ ((submitHandler ctx lb imgs y).msgs.all isFailureMsg = true ∧
        (submitHandler ctx lb imgs y).leaderboard = lb ∧
        (submitHandler ctx lb imgs y).saveCalls = [] ∧
        (submitHandler ctx lb imgs y).fileAfter = ctx.file) := by
  unfold submitHandler
  by_cases h1 : ctx.submit = true ∧ ctx.uploaded_file.isSome = true ∧ pyStrip ctx.username ≠ []
  · rw [if_pos h1]
    cases hl : ctx.load_model with
    | error e => right; simp [mkTmpResult, isFailureMsg]
    | ok m =>
      dsimp only
      by_cases h2 : m.input_shape.length = 4 ∧ m.input_shape.getLast? = some (some 3)
      · rw [if_pos h2]
        by_cases h3 : m.input_shape.getD 1 none = none ∨ m.input_shape.getD 2 none = none
        · rw [if_pos h3]
          right; simp [mkTmpResult, isFailureMsg]
        · rw [if_neg h3]
          cases he : evaluate_model m imgs y ((m.input_shape.getD 1 none).getD 0,
              (m.input_shape.getD 2 none).getD 0) with
          | error e => right; simp [mkTmpResult, isFailureMsg]
          | ok acc =>
            left
            exact ⟨acc, by simp [mkTmpResult], by simp [mkTmpResult],
              by simp [mkTmpResult], by simp [mkTmpResult]⟩
      · rw [if_neg h2]
        right; simp [mkTmpResult, isFailureMsg]
  · rw [if_neg h1]
    by_cases h2 : ctx.submit = true ∧ ¬ ctx.uploaded_file.isSome = true
    · rw [if_pos h2]
      right; simp [mkPlainResult, isFailureMsg]
    · rw [if_neg h2]
      by_cases h3 : ctx.submit = true ∧ pyStrip ctx.username = []
      · rw [if_pos h3]
        right; simp [mkPlainResult, isFailureMsg]
      · rw [if_neg h3]
        right; simp [mkPlainResult, isFailureMsg]

theorem submitHandler_msgs_cases (ctx : SubmitCtx) (lb : List Row) (imgs : List Img)
    (y : List Nat) :
    (submitHandler ctx lb imgs y).msgs = []
    ∨ (submitHandler ctx lb imgs y).msgs = [Msg.warnNoFile]
    ∨ (submitHandler ctx lb imgs y).msgs = [Msg.warnNoUsername]
    ∨ (∃ e, (submitHandler ctx lb imgs y).msgs = [Msg.errLoad e])
    ∨ (∃ s, (submitHandler ctx lb imgs y).msgs = [Msg.errShape s])
    ∨ (submitHandler ctx lb imgs y).msgs = [Msg.errNoneDim]
    ∨ (∃ e, (submitHandler ctx lb imgs y).msgs = [Msg.errRun e])
    ∨ (∃ a, (submitHandler ctx lb imgs y).msgs = [Msg.successMsg a]) := by
  unfold submitHandler
  by_cases h1 : ctx.submit = true ∧ ctx.uploaded_file.isSome = true ∧ pyStrip ctx.username ≠ []
  · rw [if_pos h1]
    cases hl : ctx.load_model with
    | error e =>
      refine Or.inr (Or.inr (Or.inr (Or.inl ⟨e, ?_⟩)))
      simp [mkTmpResult]
    | ok m =>
      dsimp only
      by_cases h2 : m.input_shape.length = 4 ∧ m.input_shape.getLast? = some (some 3)
      · rw [if_pos h2]
        by_cases h3 : m.input_shape.getD 1 none = none ∨ m.input_shape.getD 2 none = none
        · rw [if_pos h3]
          refine Or.inr (Or.inr (Or.inr (Or.inr (Or.inr (Or.inl ?_)))))
          simp [mkTmpResult]
        · rw [if_neg h3]
          cases he : evaluate_model m imgs y ((m.input_shape.getD 1 none).getD 0,
              (m.input_shape.getD 2 none).getD 0) with
          | error e =>
            refine Or.inr (Or.inr (Or.inr (Or.inr (Or.inr (Or.inr (Or.inl ⟨e, ?_⟩))))))
            simp [mkTmpResult]
          | ok acc =>
            refine Or.inr (Or.inr (Or.inr (Or.inr (Or.inr (Or.inr (Or.inr ⟨acc, ?_⟩))))))
            simp [mkTmpResult]
      · rw [if_neg h2]
        refine Or.inr (Or.inr (Or.inr (Or.inr (Or.inl ⟨m.input_shape, ?_⟩))))
        simp [mkTmpResult]
  · rw [if_neg h1]
    by_cases h2 : ctx.submit = true ∧ ¬ ctx.uploaded_file.isSome = true
    · rw [if_pos h2]
      exact Or.inr (Or.inl (by simp [mkPlainResult]))
    · rw [if_neg h2]
      by_cases h3 : ctx.submit = true ∧ pyStrip ctx.username = []
      · rw [if_pos h3]
        exact Or.inr (Or.inr (Or.inl (by simp [mkPlainResult])))
      · rw [if_neg h3]
        exact Or.inl (by simp [mkPlainResult])

/-! ## Claims -/

/-- Claim C1: the spec says that for a model with declared input height H
and width W the evaluator resizes each cached image to width W and height
H.  The code extracts input_size = (input_shape[1], input_shape[2]) =
(H, W) (src/app.py line 74) and passes it to PIL Image.resize, whose size
argument is (width, height); the resized images therefore have width H
and height W, which contradicts the claim whenever H is not equal to W.
Here, for a model declaring height 64 and width 128, the image handed to
inference is 64 wide and 128 high, not 128 wide and 64 high. -/
theorem C1_resize_swaps_declared_geometry :
    resizedBatch [⟨500, 400⟩]
        ((([none, some 64, some 128, some 3].getD 1 none).getD 0),
         (([none, some 64, some 128, some 3].getD 2 none).getD 0))
      = [⟨64, 128⟩]
    ∧ (⟨64, 128⟩ : Img) ≠ ⟨128, 64⟩ := by
  decide

/-- Claim C2: the spec says the displayed leaderboard is sorted by
accuracy descending as a number, so a newly appended 100.0-percent row
must be shown at or above a pre-existing 9.0-percent row.  The code
(src/app.py lines 118-120) first replaces the Accuracy column by strings
("9.0 %", "100.0 %") and then sorts that column, so the comparison is
lexicographic: "9.0 %" sorts above "100.0 %" and the new perfect score is
displayed strictly below the numerically lower row. -/
theorem C2_display_sorts_strings_not_numbers :
    leaderboard_display
        [⟨"bob".data, 9, "2024-01-01 00:00:00".data⟩,
         ⟨"alice".data, 100, "2024-01-02 00:00:00".data⟩]
      = [displayRow ⟨"bob".data, 9, "2024-01-01 00:00:00".data⟩,
         displayRow ⟨"alice".data, 100, "2024-01-02 00:00:00".data⟩]
    ∧ (9 : ℚ) < 100 := by
  constructor
  · decide
  · decide

/-- Claim C3: for every submission with a username that passes the guard
and a model that loads, passes the shape check and evaluates without
exception, exactly one row is appended to the leaderboard (and saved
once), and its accuracy is the fraction of test images whose
argmax-predicted class equals the true label, times 100, rounded to 2
decimal places. -/
theorem C3_success_appends_one_correct_row
    (ctx : SubmitCtx) (lb : List Row) (imgs : List Img) (y : List Nat)
    (m : Model) (preds : List (List ℚ))
    (hsubmit : ctx.submit = true)
    (hfile : ctx.uploaded_file.isSome = true)
    (huser : pyStrip ctx.username ≠ [])
    (hload : ctx.load_model = Except.ok m)
    (hshape : m.input_shape.length = 4 ∧ m.input_shape.getLast? = some (some 3))
    (hH : m.input_shape.getD 1 none ≠ none)
    (hW : m.input_shape.getD 2 none ≠ none)
    (hpred : m.predict (resizedBatch imgs ((m.input_shape.getD 1 none).getD 0,
        (m.input_shape.getD 2 none).getD 0)) = Except.ok preds)
    (_hy : y ≠ []) :
    (submitHandler ctx lb imgs y).leaderboard
        = lb ++ [⟨ctx.username,
            pyRound ((((List.zipWith (fun a b => decide (a = b)) (preds.map argmax) y).count
                true : ℚ) / (y.length : ℚ)) * 100) 2,
            ctx.now⟩]
      ∧ (submitHandler ctx lb imgs y).saveCalls
        = [(submitHandler ctx lb imgs y).leaderboard] := by
  have heval : evaluate_model m imgs y ((m.input_shape.getD 1 none).getD 0,
      (m.input_shape.getD 2 none).getD 0) = Except.ok (matchMean (preds.map argmax) y) := by
    unfold evaluate_model
    rw [hpred]
  have hs := submitHandler_success ctx lb imgs y m (matchMean (preds.map argmax) y)
    hsubmit hfile huser hload hshape hH hW heval
  rw [hs]
  constructor
  · simp [mkTmpResult, matchMean_count]
  · simp [mkTmpResult, matchMean_count]

/-- Claim C3, witness: a concrete always-class-0 model on a three-image
test set labelled [0, 1, 2] appends exactly one row with the rounded
33.33-percent accuracy formula and saves exactly once. -/
theorem C3_witness :
    (pyStrip "alice".data ≠ [] ∧ demoLabels ≠ [] ∧
      constModel.predict (resizedBatch demoImgs (64, 64)) = Except.ok demoPreds)
    ∧ ((submitHandler demoCtx [] demoImgs demoLabels).leaderboard
        = [] ++ [⟨demoCtx.username,
            pyRound ((((List.zipWith (fun a b => decide (a = b)) (demoPreds.map argmax)
                demoLabels).count true : ℚ) / (demoLabels.length : ℚ)) * 100) 2,
            demoCtx.now⟩]
      ∧ (submitHandler demoCtx [] demoImgs demoLabels).saveCalls
        = [(submitHandler demoCtx [] demoImgs demoLabels).leaderboard]) :=
  ⟨⟨by decide, by decide, rfl⟩,
    C3_success_appends_one_correct_row demoCtx [] demoImgs demoLabels constModel demoPreds
      rfl rfl (by decide) rfl (by decide) (by decide) (by decide) rfl (by decide)⟩

/-- Claim C4: for a loaded model (guards passed), the submission is
rejected with a shape error and neither evaluates nor touches the
leaderboard if and only if the declared input shape has rank not equal
to 4, or its last (channel) entry differs from 3, or its height or width
entry is the wildcard None. -/
theorem C4_shape_rejection_iff
    (ctx : SubmitCtx) (lb : List Row) (imgs : List Img) (y : List Nat) (m : Model)
    (hsubmit : ctx.submit = true)
    (hfile : ctx.uploaded_file.isSome = true)
    (huser : pyStrip ctx.username ≠ [])
    (hload : ctx.load_model = Except.ok m) :
    ((submitHandler ctx lb imgs y).ranEval = false ∧
     (submitHandler ctx lb imgs y).leaderboard = lb ∧
     (submitHandler ctx lb imgs y).saveCalls = [] ∧
     ((submitHandler ctx lb imgs y).msgs = [Msg.errShape m.input_shape] ∨
      (submitHandler ctx lb imgs y).msgs = [Msg.errNoneDim]))
    ↔ (m.input_shape.length ≠ 4 ∨ m.input_shape.getLast? ≠ some (some 3) ∨
       m.input_shape.getD 1 none = none ∨ m.input_shape.getD 2 none = none) := by
  unfold submitHandler
  rw [if_pos ⟨hsubmit, hfile, huser⟩, hload]
  dsimp only
  by_cases h2 : m.input_shape.length = 4 ∧ m.input_shape.getLast? = some (some 3)
  · rw [if_pos h2]
    by_cases h3 : m.input_shape.getD 1 none = none ∨ m.input_shape.getD 2 none = none
    · rw [if_pos h3]
      apply iff_of_true
      · simp [mkTmpResult]
      · rcases h3 with h | h
        · exact Or.inr (Or.inr (Or.inl h))
        · exact Or.inr (Or.inr (Or.inr h))
    · rw [if_neg h3]
      cases he : evaluate_model m imgs y ((m.input_shape.getD 1 none).getD 0,
          (m.input_shape.getD 2 none).getD 0) with
      | error e =>
        apply iff_of_false
        · simp [mkTmpResult]
        · push_neg
          exact ⟨h2.1, h2.2, (not_or.mp h3).1, (not_or.mp h3).2⟩
      | ok acc =>
        apply iff_of_false
        · simp [mkTmpResult]
        · push_neg
          exact ⟨h2.1, h2.2, (not_or.mp h3).1, (not_or.mp h3).2⟩
  · rw [if_neg h2]
    apply iff_of_true
    · simp [mkTmpResult]
    · rcases not_and_or.mp h2 with h | h
      · exact Or.inl h
      · exact Or.inr (Or.inl h)

/-- Claim C4, witness: a loadable model declaring channel count 1 is
rejected as an unsupported shape without evaluation or save. -/
theorem C4_witness :
    (pyStrip "alice".data ≠ [] ∧ demoCtxBad.load_model = Except.ok badShapeModel)
    ∧ (((submitHandler demoCtxBad [] demoImgs demoLabels).ranEval = false ∧
        (submitHandler demoCtxBad [] demoImgs demoLabels).leaderboard = [] ∧
        (submitHandler demoCtxBad [] demoImgs demoLabels).saveCalls = [] ∧
        ((submitHandler demoCtxBad [] demoImgs demoLabels).msgs
            = [Msg.errShape badShapeModel.input_shape] ∨
         (submitHandler demoCtxBad [] demoImgs demoLabels).msgs = [Msg.errNoneDim]))
      ↔ (badShapeModel.input_shape.length ≠ 4 ∨
         badShapeModel.input_shape.getLast? ≠ some (some 3) ∨
         badShapeModel.input_shape.getD 1 none = none ∨
         badShapeModel.input_shape.getD 2 none = none)) :=
  ⟨⟨by decide, rfl⟩,
    C4_shape_rejection_iff demoCtxBad [] demoImgs demoLabels badShapeModel
      rfl rfl (by decide) rfl⟩

/-- Claim C5: for any submission whose handling reports a failure (any
warning or error message), the save operation is never invoked and the
leaderboard file content after the attempt equals the content before. -/
theorem C5_no_mutation_on_failure
    (ctx : SubmitCtx) (lb : List Row) (imgs : List Img) (y : List Nat)
    (hfail : ∃ msg ∈ (submitHandler ctx lb imgs y).msgs, isFailureMsg msg = true) :
    (submitHandler ctx lb imgs y).fileAfter = ctx.file ∧
    (submitHandler ctx lb imgs y).saveCalls = [] := by
  rcases submitHandler_cases ctx lb imgs y with ⟨acc, hmsgs, _, _, _⟩ | ⟨_, _, hsa, hfa⟩
  · obtain ⟨msg, hm, hf⟩ := hfail
    rw [hmsgs] at hm
    simp only [List.mem_singleton] at hm
    subst hm
    simp [isFailureMsg] at hf
  · exact ⟨hfa, hsa⟩

/-- Claim C5, witness: a submission with a blank username fails with a
warning; the file on disk (here absent) and the save call list are
untouched. -/
theorem C5_witness :
    (∃ msg ∈ (submitHandler demoCtxNoUser [] demoImgs demoLabels).msgs,
        isFailureMsg msg = true)
    ∧ (submitHandler demoCtxNoUser [] demoImgs demoLabels).fileAfter = demoCtxNoUser.file
    ∧ (submitHandler demoCtxNoUser [] demoImgs demoLabels).saveCalls = [] :=
  ⟨by decide,
    (C5_no_mutation_on_failure demoCtxNoUser [] demoImgs demoLabels (by decide)).1,
    (C5_no_mutation_on_failure demoCtxNoUser [] demoImgs demoLabels (by decide)).2⟩

/-- Claim C6: leaderboard round trip.  Loading a saved well-formed table
reconstructs the table exactly (same rows, same order, the three fixed
columns being part of the format), and every well-formed file is
reproduced byte for byte by saving what it loads to. -/
theorem C6_leaderboard_round_trip :
    (∀ t, WFTable t → load_leaderboard (some (save_leaderboard t)) = some t)
    ∧ (∀ c, WFContent c → ∃ t, load_leaderboard (some c) = some t
        ∧ save_leaderboard t = c) := by
  constructor
  · intro t ht
    simpa [load_leaderboard, save_leaderboard] using read_csv_toCsv t ht
  · rintro c ⟨t, ht, rfl⟩
    refine ⟨t, ?_, rfl⟩
    simpa [load_leaderboard, save_leaderboard] using read_csv_toCsv t ht

/-- Claim C6, witness: a concrete two-row table with accuracies 100.0 and
9.0 survives the save-then-load round trip unchanged. -/
theorem C6_witness :
    WFTable demoTable
    ∧ load_leaderboard (some (save_leaderboard demoTable)) = some demoTable :=
  ⟨by decide, C6_leaderboard_round_trip.1 demoTable (by decide)⟩

/-- Claim C7: the two missing-input warnings are mutually exclusive on
every submission, and when both the file and the username are missing
only the missing-file warning is shown (file-missing takes precedence). -/
theorem C7_missing_input_warnings :
    (∀ (ctx : SubmitCtx) (lb : List Row) (imgs : List Img) (y : List Nat),
      ¬ (Msg.warnNoFile ∈ (submitHandler ctx lb imgs y).msgs ∧
         Msg.warnNoUsername ∈ (submitHandler ctx lb imgs y).msgs))
    ∧ (∀ (ctx : SubmitCtx) (lb : List Row) (imgs : List Img) (y : List Nat),
        ctx.submit = true → ctx.uploaded_file = none → pyStrip ctx.username = [] →
        (submitHandler ctx lb imgs y).msgs = [Msg.warnNoFile]) := by
  constructor
  · intro ctx lb imgs y h
    rcases submitHandler_msgs_cases ctx lb imgs y with
      h0 | h0 | h0 | ⟨e, h0⟩ | ⟨s, h0⟩ | h0 | ⟨e, h0⟩ | ⟨a, h0⟩ <;>
        rw [h0] at h <;> simp at h
  · intro ctx lb imgs y hs hf hu
    unfold submitHandler
    rw [if_neg (by simp [hf])]
    rw [if_pos ⟨hs, by simp [hf]⟩]
    rfl

/-- Claim C7, witness: with the file and the username both missing,
exactly the missing-file warning is reported. -/
theorem C7_witness :
    (demoCtxMissingBoth.submit = true ∧ demoCtxMissingBoth.uploaded_file = none ∧
      pyStrip demoCtxMissingBoth.username = [])
    ∧ (submitHandler demoCtxMissingBoth [] demoImgs demoLabels).msgs = [Msg.warnNoFile] :=
  ⟨⟨rfl, rfl, by decide⟩,
    C7_missing_input_warnings.2 demoCtxMissingBoth [] demoImgs demoLabels rfl rfl (by decide)⟩

/-- Claim C8: the loader walks class folders in the declared class-name
order and each folder's files in lexicographic order, labels every image
with its class index, returns image and label sequences of equal length,
and every label is a valid index into the class-name list. -/
theorem C8_loader_invariants (listdir : Chars → List Chars) (openImg : Chars → Img) :
    (load_raw_test_images listdir openImg).1.length
        = (load_raw_test_images listdir openImg).2.length
    ∧ (∀ l ∈ (load_raw_test_images listdir openImg).2, l < CLASS_NAMES.length)
    ∧ (load_raw_test_images listdir openImg).1
        = (CLASS_NAMES.enum.map (fun p =>
            (sortFiles (listdir (pathJoin TEST_IMAGE_DIR p.2))).map
              (fun fn => openImg (pathJoin (pathJoin TEST_IMAGE_DIR p.2) fn)))).flatten
    ∧ (load_raw_test_images listdir openImg).2
        = (CLASS_NAMES.enum.map (fun p =>
            List.replicate (sortFiles (listdir (pathJoin TEST_IMAGE_DIR p.2))).length
              p.1)).flatten
    ∧ (∀ cls : Chars, List.Sorted fileLe (sortFiles (listdir (pathJoin TEST_IMAGE_DIR cls)))
        ∧ List.Perm (sortFiles (listdir (pathJoin TEST_IMAGE_DIR cls)))
            (listdir (pathJoin TEST_IMAGE_DIR cls))) := by
  have he := load_raw_test_images_eq listdir openImg
  refine ⟨?_, ?_, ?_, ?_, ?_⟩
  · rw [he]
    simp only [List.length_flatten, List.map_map, Function.comp_def, List.length_map,
      List.length_replicate]
  · intro l hl
    rw [he] at hl
    simp only [List.mem_flatten, List.mem_map] at hl
    obtain ⟨part, ⟨p, hp, hpart⟩, hin⟩ := hl
    rw [← hpart] at hin
    have hlp : l = p.1 := List.eq_of_mem_replicate hin
    subst hlp
    have henum : CLASS_NAMES.enum
        = [(0, "A".data), (1, "B".data), (2, "C".data)] := by decide
    rw [henum] at hp
    fin_cases hp <;> decide
  · rw [he]
  · rw [he]
  · intro cls
    exact ⟨sortFiles_sorted _, sortFiles_perm _⟩

/-- Claim C8, witness: on a concrete two-file listing the loader yields
equally long image and label sequences with labels below 3, the files of
each class folder visited in sorted order. -/
theorem C8_witness :
    (load_raw_test_images demoListdir demoOpen).1.length
        = (load_raw_test_images demoListdir demoOpen).2.length
    ∧ ∀ l ∈ (load_raw_test_images demoListdir demoOpen).2, l < CLASS_NAMES.length :=
  ⟨(C8_loader_invariants demoListdir demoOpen).1,
    (C8_loader_invariants demoListdir demoOpen).2.1⟩

/-- Claim C9: every submission that reaches the temporary-file stage
(button pressed, file attached, username nonblank) creates and writes the
scoped temporary file first and deletes it as the final filesystem action
of the submission, on every exit path; in between only leaderboard saves
can occur. -/
theorem C9_tempfile_deleted_on_all_paths
    (ctx : SubmitCtx) (lb : List Row) (imgs : List Img) (y : List Nat)
    (hsubmit : ctx.submit = true)
    (hfile : ctx.uploaded_file.isSome = true)
    (huser : pyStrip ctx.username ≠ []) :
    ∃ mid, (submitHandler ctx lb imgs y).fsEvents
        = FsEvent.tmpCreate :: FsEvent.tmpWrite :: (mid ++ [FsEvent.tmpDelete])
      ∧ ∀ e ∈ mid, ∃ t, e = FsEvent.saveBoard t := by
  unfold submitHandler
  rw [if_pos ⟨hsubmit, hfile, huser⟩]
  cases hl : ctx.load_model with
  | error e => exact ⟨[], by simp [mkTmpResult], by simp⟩
  | ok m =>
    dsimp only
    by_cases h2 : m.input_shape.length = 4 ∧ m.input_shape.getLast? = some (some 3)
    · rw [if_pos h2]
      by_cases h3 : m.input_shape.getD 1 none = none ∨ m.input_shape.getD 2 none = none
      · rw [if_pos h3]
        exact ⟨[], by simp [mkTmpResult], by simp⟩
      · rw [if_neg h3]
        cases he : evaluate_model m imgs y ((m.input_shape.getD 1 none).getD 0,
            (m.input_shape.getD 2 none).getD 0) with
        | error e => exact ⟨[], by simp [mkTmpResult], by simp⟩
        | ok acc =>
          refine ⟨[FsEvent.saveBoard
              (lb ++ [⟨ctx.username, pyRound (acc * 100) 2, ctx.now⟩])], ?_, ?_⟩
          · simp [mkTmpResult]
          · intro e hein
            simp only [List.mem_singleton] at hein
            exact ⟨_, hein⟩
    · rw [if_neg h2]
      exact ⟨[], by simp [mkTmpResult], by simp⟩

/-- Claim C9, witness: a concrete successful submission creates and
writes the temporary file, saves the leaderboard in between, and deletes
the temporary file last. -/
theorem C9_witness :
    (demoCtx.submit = true ∧ demoCtx.uploaded_file.isSome = true ∧
      pyStrip demoCtx.username ≠ [])
    ∧ ∃ mid, (submitHandler demoCtx [] demoImgs demoLabels).fsEvents
        = FsEvent.tmpCreate :: FsEvent.tmpWrite :: (mid ++ [FsEvent.tmpDelete])
      ∧ ∀ e ∈ mid, ∃ t, e = FsEvent.saveBoard t :=
  ⟨⟨rfl, rfl, by decide⟩,
    C9_tempfile_deleted_on_all_paths demoCtx [] demoImgs demoLabels rfl rfl (by decide)⟩

/-- Claim C10: the guard accepts any username that is nonempty after
stripping surrounding whitespace, but the appended row records the
entered string verbatim: on every successful submission the stored
Username equals the unstripped input. -/
theorem C10_username_stored_verbatim
    (ctx : SubmitCtx) (lb : List Row) (imgs : List Img) (y : List Nat)
    (m : Model) (preds : List (List ℚ))
    (hsubmit : ctx.submit = true)
    (hfile : ctx.uploaded_file.isSome = true)
    (huser : pyStrip ctx.username ≠ [])
    (hload : ctx.load_model = Except.ok m)
    (hshape : m.input_shape.length = 4 ∧ m.input_shape.getLast? = some (some 3))
    (hH : m.input_shape.getD 1 none ≠ none)
    (hW : m.input_shape.getD 2 none ≠ none)
    (hpred : m.predict (resizedBatch imgs ((m.input_shape.getD 1 none).getD 0,
        (m.input_shape.getD 2 none).getD 0)) = Except.ok preds) :
    ∃ r : Row, (submitHandler ctx lb imgs y).leaderboard = lb ++ [r]
      ∧ r.username = ctx.username := by
  have heval : evaluate_model m imgs y ((m.input_shape.getD 1 none).getD 0,
      (m.input_shape.getD 2 none).getD 0) = Except.ok (matchMean (preds.map argmax) y) := by
    unfold evaluate_model
    rw [hpred]
  have hs := submitHandler_success ctx lb imgs y m (matchMean (preds.map argmax) y)
    hsubmit hfile huser hload hshape hH hW heval
  rw [hs]
  exact ⟨⟨ctx.username, pyRound (matchMean (preds.map argmax) y * 100) 2, ctx.now⟩,
    rfl, rfl⟩

/-- Claim C10, witness: the username " alice " (with surrounding spaces)
passes the guard and is stored verbatim, spaces included. -/
theorem C10_witness :
    (pyStrip " alice ".data ≠ [] ∧ " alice ".data ≠ "alice".data)
    ∧ ∃ r : Row, (submitHandler demoCtxWs [] demoImgs demoLabels).leaderboard = [] ++ [r]
      ∧ r.username = demoCtxWs.username :=
  ⟨⟨by decide, by decide⟩,
    C10_username_stored_verbatim demoCtxWs [] demoImgs demoLabels constModel demoPreds
      rfl rfl (by decide) rfl (by decide) (by decide) (by decide) rfl⟩
